import Mathlib

/-!
# Hamming distance SQLite extension (`sqlite_extensions/hammdist.c`)

A shallow embedding of the two functions of the extension:

* `hammdist`, the scalar SQL function: it reads its two arguments as
  64-bit signed integers, XORs them and hands the population count of the
  XOR to the host as the result;
* `sqlite3_hammdist_init`, the entry point that registers `hammdist` with
  the host.

Machine integers are `Int`/`Nat` with explicit reduction modulo `2^64`
(and `2^32` for the `int` the population count intrinsic returns).  The
host (SQLite) is modelled by explicit state passing: a context records the
results set on it, a connection records the registration calls it received.
-/

namespace Hammdist

/-! ## Machine integers -/

/-- Smallest value of `sqlite3_int64` (a 64-bit signed integer). -/
def INT64_MIN : Int := -(2 ^ 63)

/-- Largest value of `sqlite3_int64`. -/
def INT64_MAX : Int := 2 ^ 63 - 1

/-- The values of the C type `sqlite3_int64`. -/
def isInt64 (a : Int) : Prop := INT64_MIN ≤ a ∧ a ≤ INT64_MAX

instance (a : Int) : Decidable (isInt64 a) :=
  inferInstanceAs (Decidable (INT64_MIN ≤ a ∧ a ≤ INT64_MAX))

/-- Conversion of a signed integer to `unsigned long long`: the value
modulo `2^64`, which for a 64-bit signed integer is its two's-complement
bit pattern. -/
def toU64 (a : Int) : Nat := (a % 2 ^ 64).toNat

/-- Reading of a 64-bit pattern as a signed 64-bit integer. -/
def toS64 (u : Nat) : Int :=
  if u % 2 ^ 64 < 2 ^ 63 then ((u % 2 ^ 64 : Nat) : Int)
  else ((u % 2 ^ 64 : Nat) : Int) - 2 ^ 64

/-- Reading of a 32-bit pattern as a C `int`. -/
def toS32 (u : Nat) : Int :=
  if u % 2 ^ 32 < 2 ^ 31 then ((u % 2 ^ 32 : Nat) : Int)
  else ((u % 2 ^ 32 : Nat) : Int) - 2 ^ 32

/-- The C expression `a ^ b` on two `sqlite3_int64` operands: the XOR of
the two bit patterns, read back as a signed 64-bit integer. -/
def xor64 (a b : Int) : Int := toS64 (toU64 a ^^^ toU64 b)

/-- Shift-and-mask bit count over the lowest `n` bits of `x`. -/
def popcountLoop : Nat → Nat → Nat
  | 0, _ => 0
  | n + 1, x => x % 2 + popcountLoop n (x / 2)

/-- The GCC intrinsic `__builtin_popcountll`: the number of 1-bits of an
`unsigned long long`, returned as a C `int`. -/
def __builtin_popcountll (x : Nat) : Int := toS32 (popcountLoop 64 (x % 2 ^ 64))

/-- Conversion of a C `int` to `sqlite3_int64` (sign extension). -/
def intToInt64 (r : Int) : Int := toS64 (toU64 r)

/-! ## Host interface used by the scalar function -/

/-- An argument value of the host.  The extension reads its arguments only
through `sqlite3_value_int64`, so a value is represented by the 64-bit
integer the host's coercion yields for it. -/
structure sqlite3_value where
  asInt64 : Int
  deriving DecidableEq, Repr

/-- Host routine `sqlite3_value_int64`. -/
def sqlite3_value_int64 (v : sqlite3_value) : Int := v.asInt64

/-- A result-setting call received by a function context. -/
inductive ResultCall where
  | result_int64 (v : Int)
  | result_error (msg : String)
  deriving DecidableEq, Repr

/-- A function context of the host (`sqlite3_context`): the result-setting
calls made on it so far, oldest first. -/
structure sqlite3_context where
  calls : List ResultCall
  deriving DecidableEq, Repr

/-- Host routine `sqlite3_result_int64`. -/
def sqlite3_result_int64 (context : sqlite3_context) (v : Int) : sqlite3_context :=
  { context with calls := context.calls ++ [ResultCall.result_int64 v] }

/-! ## The scalar function -/

/-- The value `hammdist` computes from its two integer arguments:
`__builtin_popcountll(a ^ b)`, converted to `sqlite3_int64`. -/
def hammdistValue (a b : Int) : Int :=
  intToInt64 (__builtin_popcountll (toU64 (xor64 a b)))

/-- The function `hammdist` of `hammdist.c`.  Reading `argv[0]` or
`argv[1]` outside the argument array yields `none`. -/
def hammdist (context : sqlite3_context) (argc : Int) (argv : List sqlite3_value) :
    Option sqlite3_context := do
  let _ := argc
  let a := sqlite3_value_int64 (← argv[0]?)
  let b := sqlite3_value_int64 (← argv[1]?)
  pure (sqlite3_result_int64 context (hammdistValue a b))

/-! ## Registration -/

/-- Host constant `SQLITE_UTF8` of `sqlite3.h`: the UTF-8 text encoding. -/
def SQLITE_UTF8 : Nat := 1

/-- Host constant `SQLITE_DETERMINISTIC` of `sqlite3.h`: the flag that,
OR-ed into the text-encoding argument of a registration, declares the
function deterministic. -/
def SQLITE_DETERMINISTIC : Nat := 0x800

/-- Host status code `SQLITE_OK`. -/
def SQLITE_OK : Int := 0

/-- Host status code `SQLITE_ERROR`. -/
def SQLITE_ERROR : Int := 1

/-- Whether the flags of a registration declare the function deterministic. -/
def declaresDeterministic (eTextRep : Nat) : Bool :=
  eTextRep &&& SQLITE_DETERMINISTIC != 0

/-- Signature of a scalar (`xFunc`) or aggregate step (`xStep`) callback. -/
abbrev FuncCallback := sqlite3_context → Int → List sqlite3_value → Option sqlite3_context

/-- Signature of an aggregate final (`xFinal`) callback. -/
abbrev FinalCallback := sqlite3_context → Option sqlite3_context

/-- The arguments of one call of `sqlite3_create_function`, the connection
apart.  A null pointer is `none`. -/
structure CreateFunctionCall where
  zFunctionName : String
  nArg : Int
  eTextRep : Nat
  pApp : Option Nat
  xFunc : Option FuncCallback
  xStep : Option FuncCallback
  xFinal : Option FinalCallback

/-- A database connection of the host (`sqlite3`): the registration calls
it has received so far, oldest first. -/
structure sqlite3 where
  calls : List CreateFunctionCall

/-- The host's routine table (`sqlite3_api_routines`), restricted to the
routine the entry point calls: the status `create_function` answers for a
call on a connection.  Any status policy is a host. -/
structure sqlite3_api_routines where
  create_function : sqlite3 → CreateFunctionCall → Int

/-- The call `sqlite3_create_function(db, ...)` as the extension makes it,
through the routine table: the connection receives the call and the host's
status comes back. -/
def sqlite3_create_function (pApi : sqlite3_api_routines) (db : sqlite3)
    (zFunctionName : String) (nArg : Int) (eTextRep : Nat) (pApp : Option Nat)
    (xFunc : Option FuncCallback) (xStep : Option FuncCallback)
    (xFinal : Option FinalCallback) : Int × sqlite3 :=
  let call : CreateFunctionCall :=
    { zFunctionName := zFunctionName, nArg := nArg, eTextRep := eTextRep, pApp := pApp,
      xFunc := xFunc, xStep := xStep, xFinal := xFinal }
  (pApi.create_function db call, { db with calls := db.calls ++ [call] })

/-- What the entry point leaves behind: its return value, the connection
and the error-message slot. -/
structure InitOutcome where
  rc : Int
  db : sqlite3
  pzErrMsg : Option String

/-- The function `sqlite3_hammdist_init` of `hammdist.c`. -/
def sqlite3_hammdist_init (db : sqlite3) (pzErrMsg : Option String)
    (pApi : sqlite3_api_routines) : InitOutcome :=
  let r := sqlite3_create_function pApi db "hammdist" 2 SQLITE_UTF8 none (some hammdist) none none
  { rc := r.1, db := r.2, pzErrMsg := pzErrMsg }

/-- A host that accepts every registration. -/
def acceptingHost : sqlite3_api_routines :=
  { create_function := fun _ _ => SQLITE_OK }

/-- A host that refuses a registration under a name the connection has
already received, and accepts every other one. -/
def duplicateRejectingHost : sqlite3_api_routines :=
  { create_function := fun db call =>
      if db.calls.any (fun c => c.zFunctionName == call.zFunctionName) then SQLITE_ERROR
      else SQLITE_OK }

/-! ## Specification-side notions -/

/-- The 64-bit two's-complement pattern of a 64-bit signed integer. -/
def twosComplement64 (a : Int) : Nat :=
  if 0 ≤ a then a.toNat else (a + 2 ^ 64).toNat

/-- Bit `i` of the two's-complement pattern of `a`. -/
def bit64 (a : Int) (i : Nat) : Bool := (twosComplement64 a).testBit i

/-- The number of bit positions `0..63` at which `a` and `b` differ. -/
def differingBits (a b : Int) : Nat :=
  ((List.range 64).filter (fun i => bit64 a i != bit64 b i)).length

/-- Population count: the number of 1 digits of the binary representation. -/
def popcount (n : Nat) : Nat := (Nat.bits n).count true

/-- The 64-bit bitwise complement of a 64-bit signed integer (the C
expression `~a`): every bit of the two's-complement pattern is flipped. -/
def not64 (a : Int) : Int := toS64 (2 ^ 64 - 1 - toU64 a)

/-! ## Lemmas on machine integers -/

theorem toU64_lt (a : Int) : toU64 a < 2 ^ 64 := by
  unfold toU64
  have h1 : (0 : Int) ≤ a % 2 ^ 64 := Int.emod_nonneg a (by norm_num)
  have h2 : a % 2 ^ 64 < 2 ^ 64 := Int.emod_lt_of_pos a (by norm_num)
  omega

theorem toU64_eq_twosComplement64 (a : Int) (ha : isInt64 a) :
    toU64 a = twosComplement64 a := by
  unfold isInt64 INT64_MIN INT64_MAX at ha
  unfold toU64 twosComplement64
  split <;> omega

theorem toU64_toS64 (u : Nat) (hu : u < 2 ^ 64) : toU64 (toS64 u) = u := by
  unfold toU64 toS64
  split <;> omega

theorem toS32_of_le (n : Nat) (hn : n ≤ 64) : toS32 n = (n : Int) := by
  unfold toS32
  split <;> omega

theorem intToInt64_of_le (n : Nat) (hn : n ≤ 64) : intToInt64 (n : Int) = (n : Int) := by
  unfold intToInt64 toU64 toS64
  split <;> omega

/-! ## Lemmas on the bit count -/

theorem popcountLoop_eq_countP (n x : Nat) :
    popcountLoop n x = (List.range n).countP (fun i => x.testBit i) := by
  induction n generalizing x with
  | zero => simp [popcountLoop]
  | succ n ih =>
    rw [popcountLoop, ih, List.range_succ_eq_map, List.countP_cons, List.countP_map]
    have h : ((fun i => x.testBit i) ∘ Nat.succ) = (fun i => (x / 2).testBit i) := by
      funext i
      simp [Nat.testBit_succ]
    rw [h, Nat.testBit_zero]
    rcases Nat.mod_two_eq_zero_or_one x with h0 | h1
    · simp [h0]
    · simp [h1, Nat.add_comm]

theorem popcountLoop_le (n x : Nat) : popcountLoop n x ≤ n := by
  rw [popcountLoop_eq_countP]
  simpa using (List.countP_le_length (fun i => x.testBit i) (l := List.range n))

theorem popcountLoop_eq_popcount (n x : Nat) (hx : x < 2 ^ n) :
    popcountLoop n x = popcount x := by
  unfold popcount
  induction n generalizing x with
  | zero =>
    have h0 : x = 0 := by simpa using hx
    subst h0
    simp [popcountLoop]
  | succ n ih =>
    have hdiv : x / 2 < 2 ^ n := by
      rw [pow_succ] at hx
      omega
    rw [popcountLoop, ih (x / 2) hdiv]
    rcases Nat.mod_two_eq_zero_or_one x with h0 | h1
    · by_cases hz : x / 2 = 0
      · have hx0 : x = 0 := by omega
        subst hx0
        simp
      · have hx2 : x = 2 * (x / 2) := by omega
        conv_rhs => rw [hx2, Nat.bit0_bits _ hz]
        simp [h0]
    · have hx2 : x = 2 * (x / 2) + 1 := by omega
      conv_rhs => rw [hx2, Nat.bit1_bits]
      simp [h1, Nat.add_comm]

/-- The value computed by `hammdist`, as a count over the 64 bit positions
of the two converted operands. -/
theorem hammdistValue_eq_countP (a b : Int) :
    hammdistValue a b =
      (((List.range 64).countP
        (fun i => (toU64 a).testBit i != (toU64 b).testBit i) : Nat) : Int) := by
  have hlt : toU64 a ^^^ toU64 b < 2 ^ 64 := Nat.xor_lt_two_pow (toU64_lt a) (toU64_lt b)
  have hle := popcountLoop_le 64 (toU64 a ^^^ toU64 b)
  unfold hammdistValue __builtin_popcountll xor64
  rw [toU64_toS64 _ hlt, Nat.mod_eq_of_lt hlt, toS32_of_le _ hle, intToInt64_of_le _ hle,
    popcountLoop_eq_countP]
  have hfun : (fun i => (toU64 a ^^^ toU64 b).testBit i) =
      (fun i => (toU64 a).testBit i != (toU64 b).testBit i) := by
    funext i
    rw [Nat.testBit_xor]
  rw [hfun]

/-- The value computed by `hammdist`, as the bit count of the XOR of the two
converted operands. -/
theorem hammdistValue_eq_popcountLoop (a b : Int) :
    hammdistValue a b = ((popcountLoop 64 (toU64 a ^^^ toU64 b) : Nat) : Int) := by
  have hlt : toU64 a ^^^ toU64 b < 2 ^ 64 := Nat.xor_lt_two_pow (toU64_lt a) (toU64_lt b)
  have hle := popcountLoop_le 64 (toU64 a ^^^ toU64 b)
  unfold hammdistValue __builtin_popcountll xor64
  rw [toU64_toS64 _ hlt, Nat.mod_eq_of_lt hlt, toS32_of_le _ hle, intToInt64_of_le _ hle]

/-- On a two-element argument array `hammdist` sets one integer result. -/
theorem hammdist_two_args (context : sqlite3_context) (argc : Int) (a b : Int) :
    hammdist context argc [{ asInt64 := a }, { asInt64 := b }] =
      some (sqlite3_result_int64 context (hammdistValue a b)) := rfl

theorem countP_le_add_of_imp (l : List Nat) (p q r : Nat → Bool)
    (h : ∀ i, p i = true → q i = true ∨ r i = true) :
    l.countP p ≤ l.countP q + l.countP r := by
  induction l with
  | nil => simp
  | cons x xs ih =>
    simp only [List.countP_cons]
    have hx := h x
    cases hp : p x <;> cases hq : q x <;> cases hr : r x <;> simp_all <;> omega

/-! ## The scalar function: claims -/

/-- C1: for every pair of 64-bit signed integers `a` and `b`, the value
`hammdist` passes to the host as its result is the number of bit positions
`0..63` at which the two's-complement patterns of `a` and `b` differ. -/
theorem hammdist_counts_differing_bits (context : sqlite3_context) (a b : Int)
    (ha : isInt64 a) (hb : isInt64 b) :
    hammdist context 2 [{ asInt64 := a }, { asInt64 := b }] =
      some (sqlite3_result_int64 context ((differingBits a b : Nat) : Int)) := by
  rw [hammdist_two_args, hammdistValue_eq_countP, toU64_eq_twosComplement64 a ha,
    toU64_eq_twosComplement64 b hb]
  unfold differingBits bit64
  rw [List.countP_eq_length_filter]

/-- Instance of C1 at `a = -5`, `b = 3`, where 61 bits differ. -/
theorem hammdist_counts_differing_bits_witness :
    isInt64 (-5) ∧ isInt64 3 ∧ differingBits (-5) 3 = 61 ∧
      hammdist { calls := [] } 2 [{ asInt64 := -5 }, { asInt64 := 3 }] =
        some (sqlite3_result_int64 { calls := [] } ((differingBits (-5) 3 : Nat) : Int)) :=
  ⟨by decide, by decide, by decide,
    hammdist_counts_differing_bits { calls := [] } (-5) 3 (by decide) (by decide)⟩

/-- C2: for every pair of 64-bit signed integers `a` and `b`, negative ones
included, the result of `hammdist` is the population count of the XOR of the
two full 64-bit unsigned patterns; the XOR stays within 64 bits and nothing
is lost or added by the conversions between signed and unsigned or by the
conversion of the count back to a 64-bit integer. -/
theorem hammdist_eq_popcount_xor (context : sqlite3_context) (a b : Int)
    (ha : isInt64 a) (hb : isInt64 b) :
    twosComplement64 a ^^^ twosComplement64 b < 2 ^ 64 ∧
    hammdist context 2 [{ asInt64 := a }, { asInt64 := b }] =
      some (sqlite3_result_int64 context
        ((popcount (twosComplement64 a ^^^ twosComplement64 b) : Nat) : Int)) := by
  have hlt : toU64 a ^^^ toU64 b < 2 ^ 64 := Nat.xor_lt_two_pow (toU64_lt a) (toU64_lt b)
  rw [hammdist_two_args, hammdistValue_eq_popcountLoop, popcountLoop_eq_popcount _ _ hlt]
  rw [toU64_eq_twosComplement64 a ha, toU64_eq_twosComplement64 b hb] at *
  exact ⟨hlt, rfl⟩

/-- Instance of C2 at `a = -2^63` (the smallest value), `b = 2^63 - 1` (the
largest): the XOR is the all-ones pattern and the count is 64. -/
theorem hammdist_eq_popcount_xor_witness :
    isInt64 (-9223372036854775808) ∧ isInt64 9223372036854775807 ∧
    twosComplement64 (-9223372036854775808) ^^^ twosComplement64 9223372036854775807
      = 18446744073709551615 ∧
    (twosComplement64 (-9223372036854775808) ^^^ twosComplement64 9223372036854775807 < 2 ^ 64 ∧
    hammdist { calls := [] } 2
        [{ asInt64 := -9223372036854775808 }, { asInt64 := 9223372036854775807 }] =
      some (sqlite3_result_int64 { calls := [] }
        ((popcount (twosComplement64 (-9223372036854775808) ^^^
          twosComplement64 9223372036854775807) : Nat) : Int))) :=
  ⟨by decide, by decide, by decide,
    hammdist_eq_popcount_xor { calls := [] } (-9223372036854775808) 9223372036854775807
      (by decide) (by decide)⟩

/-- C3: for all 64-bit integers `a` and `b`, the result of `hammdist(a, b)`
lies in the closed range `[0, 64]`. -/
theorem hammdist_range (context : sqlite3_context) (a b : Int)
    (_ha : isInt64 a) (_hb : isInt64 b) :
    ∃ d : Int, hammdist context 2 [{ asInt64 := a }, { asInt64 := b }] =
        some (sqlite3_result_int64 context d) ∧ 0 ≤ d ∧ d ≤ 64 := by
  refine ⟨hammdistValue a b, hammdist_two_args context 2 a b, ?_, ?_⟩
  · rw [hammdistValue_eq_popcountLoop]
    exact Int.ofNat_nonneg _
  · rw [hammdistValue_eq_popcountLoop]
    exact_mod_cast popcountLoop_le 64 (toU64 a ^^^ toU64 b)

/-- Instance of C3 at `a = -1`, `b = 2^62`. -/
theorem hammdist_range_witness :
    isInt64 (-1) ∧ isInt64 4611686018427387904 ∧
    ∃ d : Int, hammdist { calls := [] } 2
        [{ asInt64 := -1 }, { asInt64 := 4611686018427387904 }] =
        some (sqlite3_result_int64 { calls := [] } d) ∧ 0 ≤ d ∧ d ≤ 64 :=
  ⟨by decide, by decide,
    hammdist_range { calls := [] } (-1) 4611686018427387904 (by decide) (by decide)⟩

/-- C4: triangle inequality.  For all 64-bit integers `a`, `b` and `c`, the
results `x` of `hammdist(a, b)`, `y` of `hammdist(a, c)` and `z` of
`hammdist(c, b)` satisfy `x ≤ y + z`. -/
theorem hammdist_triangle (context : sqlite3_context) (a b c : Int)
    (_ha : isInt64 a) (_hb : isInt64 b) (_hc : isInt64 c) :
    ∃ x y z : Int,
      hammdist context 2 [{ asInt64 := a }, { asInt64 := b }] =
        some (sqlite3_result_int64 context x) ∧
      hammdist context 2 [{ asInt64 := a }, { asInt64 := c }] =
        some (sqlite3_result_int64 context y) ∧
      hammdist context 2 [{ asInt64 := c }, { asInt64 := b }] =
        some (sqlite3_result_int64 context z) ∧
      x ≤ y + z := by
  refine ⟨hammdistValue a b, hammdistValue a c, hammdistValue c b,
    hammdist_two_args context 2 a b, hammdist_two_args context 2 a c,
    hammdist_two_args context 2 c b, ?_⟩
  rw [hammdistValue_eq_countP, hammdistValue_eq_countP, hammdistValue_eq_countP]
  have h := countP_le_add_of_imp (List.range 64)
    (fun i => (toU64 a).testBit i != (toU64 b).testBit i)
    (fun i => (toU64 a).testBit i != (toU64 c).testBit i)
    (fun i => (toU64 c).testBit i != (toU64 b).testBit i)
    (by
      intro i
      beta_reduce
      generalize (toU64 a).testBit i = p
      generalize (toU64 b).testBit i = q
      generalize (toU64 c).testBit i = r
      revert p q r
      decide)
  exact_mod_cast h

/-- Instance of C4 at `a = -7`, `b = 12`, `c = 2^63 - 1`. -/
theorem hammdist_triangle_witness :
    isInt64 (-7) ∧ isInt64 12 ∧ isInt64 9223372036854775807 ∧
    ∃ x y z : Int,
      hammdist { calls := [] } 2 [{ asInt64 := -7 }, { asInt64 := 12 }] =
        some (sqlite3_result_int64 { calls := [] } x) ∧
      hammdist { calls := [] } 2 [{ asInt64 := -7 }, { asInt64 := 9223372036854775807 }] =
        some (sqlite3_result_int64 { calls := [] } y) ∧
      hammdist { calls := [] } 2 [{ asInt64 := 9223372036854775807 }, { asInt64 := 12 }] =
        some (sqlite3_result_int64 { calls := [] } z) ∧
      x ≤ y + z :=
  ⟨by decide, by decide, by decide,
    hammdist_triangle { calls := [] } (-7) 12 9223372036854775807
      (by decide) (by decide) (by decide)⟩

/-- C5: symmetry.  For all 64-bit integers `a` and `b`, `hammdist(a, b)` and
`hammdist(b, a)` hand the same result to the host. -/
theorem hammdist_symm (context : sqlite3_context) (a b : Int)
    (_ha : isInt64 a) (_hb : isInt64 b) :
    hammdist context 2 [{ asInt64 := a }, { asInt64 := b }] =
      hammdist context 2 [{ asInt64 := b }, { asInt64 := a }] := by
  rw [hammdist_two_args, hammdist_two_args, hammdistValue_eq_popcountLoop,
    hammdistValue_eq_popcountLoop, Nat.xor_comm]

/-- Instance of C5 at `a = -2^63`, `b = 1`. -/
theorem hammdist_symm_witness :
    isInt64 (-9223372036854775808) ∧ isInt64 1 ∧
    hammdist { calls := [] } 2 [{ asInt64 := -9223372036854775808 }, { asInt64 := 1 }] =
      hammdist { calls := [] } 2 [{ asInt64 := 1 }, { asInt64 := -9223372036854775808 }] :=
  ⟨by decide, by decide,
    hammdist_symm { calls := [] } (-9223372036854775808) 1 (by decide) (by decide)⟩

/-- C6: for every 64-bit integer `a`, the result of `hammdist(a, a)` is 0. -/
theorem hammdist_self (context : sqlite3_context) (a : Int) (_ha : isInt64 a) :
    hammdist context 2 [{ asInt64 := a }, { asInt64 := a }] =
      some (sqlite3_result_int64 context 0) := by
  rw [hammdist_two_args, hammdistValue_eq_popcountLoop, Nat.xor_self,
    popcountLoop_eq_popcount 64 0 (by norm_num)]
  simp [popcount]

/-- Instance of C6 at `a = -42`. -/
theorem hammdist_self_witness :
    isInt64 (-42) ∧
    hammdist { calls := [] } 2 [{ asInt64 := -42 }, { asInt64 := -42 }] =
      some (sqlite3_result_int64 { calls := [] } 0) :=
  ⟨by decide, hammdist_self { calls := [] } (-42) (by decide)⟩

/-- C7: `hammdist(0, -1) = 64`.  The value `-1` is a 64-bit signed integer
whose two's-complement pattern is all ones, and the result handed to the
host is exactly 64. -/
theorem hammdist_zero_minus_one (context : sqlite3_context) :
    isInt64 (-1) ∧ twosComplement64 (-1) = 2 ^ 64 - 1 ∧
    hammdist context 2 [{ asInt64 := 0 }, { asInt64 := -1 }] =
      some (sqlite3_result_int64 context 64) := by
  refine ⟨by decide, by decide, ?_⟩
  rw [hammdist_two_args]
  have h : hammdistValue 0 (-1) = 64 := by decide
  rw [h]

/-- C8: the concrete values of the specification: `hammdist(0, 0) = 0`,
`hammdist(1, 0) = 1` and `hammdist(5, 3) = 2`, where `5 XOR 3 = 6` has
population count 2. -/
theorem hammdist_examples (context : sqlite3_context) :
    hammdist context 2 [{ asInt64 := 0 }, { asInt64 := 0 }] =
      some (sqlite3_result_int64 context 0) ∧
    hammdist context 2 [{ asInt64 := 1 }, { asInt64 := 0 }] =
      some (sqlite3_result_int64 context 1) ∧
    hammdist context 2 [{ asInt64 := 5 }, { asInt64 := 3 }] =
      some (sqlite3_result_int64 context 2) ∧
    xor64 5 3 = 6 ∧ __builtin_popcountll (toU64 6) = 2 := by
  have h0 : hammdistValue 0 0 = 0 := by decide
  have h1 : hammdistValue 1 0 = 1 := by decide
  have h2 : hammdistValue 5 3 = 2 := by decide
  refine ⟨?_, ?_, ?_, by decide, by decide⟩
  · rw [hammdist_two_args, h0]
  · rw [hammdist_two_args, h1]
  · rw [hammdist_two_args, h2]

/-! ## Registration: claims -/

/-- C9: `sqlite3_hammdist_init` makes exactly one call to the host's
function-registration routine (the connection receives one call more than
it had) and returns the status the host answers for that call, unmodified;
in particular, against a host that answers `r`, whatever `r` is, it returns
`r`. -/
theorem sqlite3_hammdist_init_returns_host_status (db : sqlite3)
    (pzErrMsg : Option String) (pApi : sqlite3_api_routines) :
    (∃ call : CreateFunctionCall,
      (sqlite3_hammdist_init db pzErrMsg pApi).db.calls = db.calls ++ [call] ∧
      (sqlite3_hammdist_init db pzErrMsg pApi).rc = pApi.create_function db call) ∧
    (∀ r : Int,
      (sqlite3_hammdist_init db pzErrMsg { create_function := fun _ _ => r }).rc = r) :=
  ⟨⟨_, rfl, rfl⟩, fun _ => rfl⟩

/-- Registering twice on one connection, against a host that refuses
duplicate names: the first load succeeds, the second one surfaces the
host's error. -/
theorem sqlite3_hammdist_init_twice :
    (sqlite3_hammdist_init { calls := [] } none duplicateRejectingHost).rc = SQLITE_OK ∧
    (sqlite3_hammdist_init
      (sqlite3_hammdist_init { calls := [] } none duplicateRejectingHost).db none
      duplicateRejectingHost).rc = SQLITE_ERROR := by
  constructor <;> decide

/-- C10 as stated fails: on an empty connection of a host that accepts the
registration, the call the connection receives does not have all of the
name `hammdist`, arity 2, `hammdist` as the scalar callback, no aggregate
callbacks and flags that declare the function deterministic. -/
theorem sqlite3_hammdist_init_not_deterministic :
    ¬ ∃ call : CreateFunctionCall,
      (sqlite3_hammdist_init { calls := [] } none acceptingHost).db.calls = [call] ∧
      call.zFunctionName = "hammdist" ∧ call.nArg = 2 ∧
      call.xFunc = some hammdist ∧ call.xStep = none ∧ call.xFinal = none ∧
      declaresDeterministic call.eTextRep = true := by
  rintro ⟨call, hcalls, -, -, -, -, -, hdet⟩
  have hcall : call.eTextRep = SQLITE_UTF8 := by
    simp only [sqlite3_hammdist_init, sqlite3_create_function, List.nil_append,
      List.cons.injEq, and_true] at hcalls
    rw [← hcalls]
  rw [hcall] at hdet
  exact absurd hdet (by decide)

/-- C10, amended: `sqlite3_hammdist_init` hands the host's registration
routine the name `hammdist`, arity 2, the `hammdist` callback as the scalar
implementation, no user data and no aggregate step or final callback, and
the flags `SQLITE_UTF8` alone, which select the text encoding and do not
declare the function deterministic. -/
theorem sqlite3_hammdist_init_registration (db : sqlite3)
    (pzErrMsg : Option String) (pApi : sqlite3_api_routines) :
    ∃ call : CreateFunctionCall,
      (sqlite3_hammdist_init db pzErrMsg pApi).db.calls = db.calls ++ [call] ∧
      call.zFunctionName = "hammdist" ∧ call.nArg = 2 ∧
      call.xFunc = some hammdist ∧ call.xStep = none ∧ call.xFinal = none ∧
      call.pApp = none ∧ call.eTextRep = SQLITE_UTF8 ∧
      declaresDeterministic call.eTextRep = false :=
  ⟨_, rfl, rfl, rfl, rfl, rfl, rfl, rfl, rfl, by decide⟩

/-! ## Further lemmas on the 64-bit operations -/

theorem toS64_isInt64 (u : Nat) : isInt64 (toS64 u) := by
  unfold isInt64 INT64_MIN INT64_MAX toS64
  split <;> omega

theorem toU64_injOn (a b : Int) (ha : isInt64 a) (hb : isInt64 b)
    (h : toU64 a = toU64 b) : a = b := by
  unfold isInt64 INT64_MIN INT64_MAX at ha hb
  unfold toU64 at h
  omega

theorem not64_eq (a : Int) (ha : isInt64 a) : not64 a = -a - 1 := by
  unfold isInt64 INT64_MIN INT64_MAX at ha
  unfold not64 toS64 toU64
  split <;> omega

theorem toU64_not64 (a : Int) : toU64 (not64 a) = 2 ^ 64 - (toU64 a + 1) := by
  have hlt := toU64_lt a
  unfold not64
  rw [toU64_toS64 _ (by omega)]
  omega

theorem testBit_toU64_not64 (a : Int) (i : Nat) (hi : i < 64) :
    (toU64 (not64 a)).testBit i = !(toU64 a).testBit i := by
  rw [toU64_not64, Nat.testBit_two_pow_sub_succ (toU64_lt a)]
  simp [hi]

theorem toU64_xor64 (a b : Int) : toU64 (xor64 a b) = toU64 a ^^^ toU64 b := by
  unfold xor64
  exact toU64_toS64 _ (Nat.xor_lt_two_pow (toU64_lt a) (toU64_lt b))

theorem popcountLoop_eq_zero (n x : Nat) (hx : x < 2 ^ n) (h : popcountLoop n x = 0) :
    x = 0 := by
  induction n generalizing x with
  | zero => simpa using hx
  | succ n ih =>
    rw [popcountLoop] at h
    have hdiv : x / 2 < 2 ^ n := by
      rw [pow_succ] at hx
      omega
    have h2 := ih (x / 2) hdiv (by omega)
    omega

theorem sqlite3_result_int64_inj (context : sqlite3_context) (v w : Int) :
    some (sqlite3_result_int64 context v) = some (sqlite3_result_int64 context w) ↔ v = w := by
  simp [sqlite3_result_int64]

/-- The value computed by `hammdist` is 0 exactly on equal operands. -/
theorem hammdistValue_eq_zero_iff (a b : Int) (ha : isInt64 a) (hb : isInt64 b) :
    hammdistValue a b = 0 ↔ a = b := by
  rw [hammdistValue_eq_popcountLoop]
  constructor
  · intro h
    have hlt : toU64 a ^^^ toU64 b < 2 ^ 64 := Nat.xor_lt_two_pow (toU64_lt a) (toU64_lt b)
    have h0 := popcountLoop_eq_zero 64 _ hlt (by exact_mod_cast h)
    exact toU64_injOn a b ha hb (Nat.xor_eq_zero.mp h0)
  · intro h
    subst h
    rw [Nat.xor_self, popcountLoop_eq_popcount 64 0 (by norm_num)]
    simp [popcount]

theorem countP_add_countP_not (l : List Nat) (p q : Nat → Bool)
    (h : ∀ i ∈ l, q i = !p i) : l.countP p + l.countP q = l.length := by
  induction l with
  | nil => simp
  | cons x xs ih =>
    have hx := h x (List.mem_cons_self x xs)
    have ih2 := ih (fun i hi => h i (List.mem_cons_of_mem x hi))
    simp only [List.countP_cons, List.length_cons]
    cases hp : p x <;> simp_all <;> omega

/-- The values computed by `hammdist` against an operand and against its
complement add up to 64. -/
theorem hammdistValue_add_not64 (a b : Int) :
    hammdistValue a b + hammdistValue a (not64 b) = 64 := by
  rw [hammdistValue_eq_countP, hammdistValue_eq_countP]
  have h := countP_add_countP_not (List.range 64)
    (fun i => (toU64 a).testBit i != (toU64 b).testBit i)
    (fun i => (toU64 a).testBit i != (toU64 (not64 b)).testBit i)
    (by
      intro i hi
      beta_reduce
      rw [testBit_toU64_not64 b i (List.mem_range.mp hi)]
      generalize (toU64 a).testBit i = p
      generalize (toU64 b).testBit i = q
      revert p q
      decide)
  rw [List.length_range] at h
  exact_mod_cast h

/-- The value computed by `hammdist` does not change when both operands are
XOR-ed with the same mask. -/
theorem hammdistValue_xor64 (a b m : Int) :
    hammdistValue (xor64 a m) (xor64 b m) = hammdistValue a b := by
  rw [hammdistValue_eq_popcountLoop, hammdistValue_eq_popcountLoop, toU64_xor64, toU64_xor64]
  have h : (toU64 a ^^^ toU64 m) ^^^ (toU64 b ^^^ toU64 m) = toU64 a ^^^ toU64 b := by
    apply Nat.eq_of_testBit_eq
    intro i
    simp only [Nat.testBit_xor]
    generalize (toU64 a).testBit i = p
    generalize (toU64 b).testBit i = q
    generalize (toU64 m).testBit i = r
    revert p q r
    decide
  rw [h]

/-- The value computed by `hammdist` does not change when both operands are
complemented. -/
theorem hammdistValue_not64 (a b : Int) :
    hammdistValue (not64 a) (not64 b) = hammdistValue a b := by
  rw [hammdistValue_eq_countP, hammdistValue_eq_countP]
  have h : (List.range 64).countP
      (fun i => (toU64 (not64 a)).testBit i != (toU64 (not64 b)).testBit i) =
      (List.range 64).countP (fun i => (toU64 a).testBit i != (toU64 b).testBit i) := by
    apply List.countP_congr
    intro i hi
    beta_reduce
    rw [testBit_toU64_not64 a i (List.mem_range.mp hi),
      testBit_toU64_not64 b i (List.mem_range.mp hi)]
    generalize (toU64 a).testBit i = p
    generalize (toU64 b).testBit i = q
    revert p q
    decide
  rw [h]

/-! ## The scalar function: further claims -/

/-- C11: `hammdist` is deterministic and total.  For every pair of 64-bit
argument values it returns, and what it leaves on the host context is the
earlier calls followed by exactly one call, which sets an integer result and
not an error; the integer is the same whatever the context and the calls
made on it before. -/
theorem hammdist_deterministic_total (context₁ context₂ : sqlite3_context) (a b : Int)
    (_ha : isInt64 a) (_hb : isInt64 b) :
    ∃ d : Int,
      hammdist context₁ 2 [{ asInt64 := a }, { asInt64 := b }] =
        some { calls := context₁.calls ++ [ResultCall.result_int64 d] } ∧
      hammdist context₂ 2 [{ asInt64 := a }, { asInt64 := b }] =
        some { calls := context₂.calls ++ [ResultCall.result_int64 d] } :=
  ⟨hammdistValue a b, rfl, rfl⟩

/-- Instance of C11 at `a = -9`, `b = 4`, on a fresh context and on one that
already holds an integer result and an error. -/
theorem hammdist_deterministic_total_witness :
    isInt64 (-9) ∧ isInt64 4 ∧
    ∃ d : Int,
      hammdist { calls := [] } 2 [{ asInt64 := -9 }, { asInt64 := 4 }] =
        some { calls := [] ++ [ResultCall.result_int64 d] } ∧
      hammdist { calls := [ResultCall.result_int64 7, ResultCall.result_error "e"] } 2
          [{ asInt64 := -9 }, { asInt64 := 4 }] =
        some { calls := [ResultCall.result_int64 7, ResultCall.result_error "e"] ++
          [ResultCall.result_int64 d] } :=
  ⟨by decide, by decide,
    hammdist_deterministic_total { calls := [] }
      { calls := [ResultCall.result_int64 7, ResultCall.result_error "e"] } (-9) 4
      (by decide) (by decide)⟩

/-- C12: identity of indiscernibles.  For all 64-bit integers `a` and `b`,
the result of `hammdist(a, b)` is 0 if and only if `a = b`. -/
theorem hammdist_eq_zero_iff (context : sqlite3_context) (a b : Int)
    (ha : isInt64 a) (hb : isInt64 b) :
    hammdist context 2 [{ asInt64 := a }, { asInt64 := b }] =
      some (sqlite3_result_int64 context 0) ↔ a = b := by
  rw [hammdist_two_args, sqlite3_result_int64_inj]
  exact hammdistValue_eq_zero_iff a b ha hb

/-- Instance of C12 at `a = -2^63`, `b = 2^63 - 1`, two distinct values. -/
theorem hammdist_eq_zero_iff_witness :
    isInt64 (-9223372036854775808) ∧ isInt64 9223372036854775807 ∧
    (hammdist { calls := [] } 2
        [{ asInt64 := -9223372036854775808 }, { asInt64 := 9223372036854775807 }] =
      some (sqlite3_result_int64 { calls := [] } 0) ↔
      (-9223372036854775808 : Int) = 9223372036854775807) :=
  ⟨by decide, by decide,
    hammdist_eq_zero_iff { calls := [] } (-9223372036854775808) 9223372036854775807
      (by decide) (by decide)⟩

/-- C13: XOR-translation invariance.  For all 64-bit integers `a`, `b` and
`m`, the operands `a XOR m` and `b XOR m` are 64-bit integers on which
`hammdist` hands the host the same result as on `a` and `b`; the same holds
for the bitwise complements of `a` and `b`. -/
theorem hammdist_xor_translation (context : sqlite3_context) (a b m : Int)
    (_ha : isInt64 a) (_hb : isInt64 b) (_hm : isInt64 m) :
    (isInt64 (xor64 a m) ∧ isInt64 (xor64 b m) ∧
      hammdist context 2 [{ asInt64 := xor64 a m }, { asInt64 := xor64 b m }] =
        hammdist context 2 [{ asInt64 := a }, { asInt64 := b }]) ∧
    (isInt64 (not64 a) ∧ isInt64 (not64 b) ∧
      hammdist context 2 [{ asInt64 := not64 a }, { asInt64 := not64 b }] =
        hammdist context 2 [{ asInt64 := a }, { asInt64 := b }]) := by
  refine ⟨⟨toS64_isInt64 _, toS64_isInt64 _, ?_⟩, ⟨toS64_isInt64 _, toS64_isInt64 _, ?_⟩⟩
  · rw [hammdist_two_args, hammdist_two_args, hammdistValue_xor64]
  · rw [hammdist_two_args, hammdist_two_args, hammdistValue_not64]

/-- Instance of C13 at `a = 5`, `b = -3`, `m = -2^63`. -/
theorem hammdist_xor_translation_witness :
    isInt64 5 ∧ isInt64 (-3) ∧ isInt64 (-9223372036854775808) ∧
    xor64 5 (-9223372036854775808) = -9223372036854775803 ∧ not64 5 = -6 ∧
    ((isInt64 (xor64 5 (-9223372036854775808)) ∧ isInt64 (xor64 (-3) (-9223372036854775808)) ∧
      hammdist { calls := [] } 2 [{ asInt64 := xor64 5 (-9223372036854775808) },
          { asInt64 := xor64 (-3) (-9223372036854775808) }] =
        hammdist { calls := [] } 2 [{ asInt64 := 5 }, { asInt64 := -3 }]) ∧
    (isInt64 (not64 5) ∧ isInt64 (not64 (-3)) ∧
      hammdist { calls := [] } 2 [{ asInt64 := not64 5 }, { asInt64 := not64 (-3) }] =
        hammdist { calls := [] } 2 [{ asInt64 := 5 }, { asInt64 := -3 }])) :=
  ⟨by decide, by decide, by decide, by decide, by decide,
    hammdist_xor_translation { calls := [] } 5 (-3) (-9223372036854775808)
      (by decide) (by decide) (by decide)⟩

/-- C14: complement law.  For all 64-bit integers `a` and `b`, the results
`x` of `hammdist(a, b)` and `y` of `hammdist(a, NOT b)` add up to 64, and the
result of `hammdist(a, b)` is 64 if and only if `b` is the bitwise
complement of `a`. -/
theorem hammdist_complement (context : sqlite3_context) (a b : Int)
    (ha : isInt64 a) (hb : isInt64 b) :
    (∃ x y : Int,
      hammdist context 2 [{ asInt64 := a }, { asInt64 := b }] =
        some (sqlite3_result_int64 context x) ∧
      hammdist context 2 [{ asInt64 := a }, { asInt64 := not64 b }] =
        some (sqlite3_result_int64 context y) ∧
      x + y = 64) ∧
    (hammdist context 2 [{ asInt64 := a }, { asInt64 := b }] =
      some (sqlite3_result_int64 context 64) ↔ b = not64 a) := by
  refine ⟨⟨hammdistValue a b, hammdistValue a (not64 b), hammdist_two_args context 2 a b,
    hammdist_two_args context 2 a (not64 b), hammdistValue_add_not64 a b⟩, ?_⟩
  rw [hammdist_two_args, sqlite3_result_int64_inj]
  have hadd := hammdistValue_add_not64 a b
  have hzero := hammdistValue_eq_zero_iff a (not64 b) ha (toS64_isInt64 _)
  have hna := not64_eq a ha
  have hnb := not64_eq b hb
  generalize hammdistValue a (not64 b) = y at hadd hzero
  generalize hammdistValue a b = x at hadd
  generalize not64 a = na at hna
  generalize not64 b = nb at hnb hzero
  constructor
  · intro h
    have h0 : a = nb := hzero.mp (by omega)
    omega
  · intro h
    have h0 : y = 0 := hzero.mpr (by omega)
    omega

/-- Instance of C14 at `a = 12`, `b = -13`, the bitwise complement of 12. -/
theorem hammdist_complement_witness :
    isInt64 12 ∧ isInt64 (-13) ∧ not64 12 = -13 ∧
    ((∃ x y : Int,
      hammdist { calls := [] } 2 [{ asInt64 := 12 }, { asInt64 := -13 }] =
        some (sqlite3_result_int64 { calls := [] } x) ∧
      hammdist { calls := [] } 2 [{ asInt64 := 12 }, { asInt64 := not64 (-13) }] =
        some (sqlite3_result_int64 { calls := [] } y) ∧
      x + y = 64) ∧
    (hammdist { calls := [] } 2 [{ asInt64 := 12 }, { asInt64 := -13 }] =
      some (sqlite3_result_int64 { calls := [] } 64) ↔ (-13 : Int) = not64 12)) :=
  ⟨by decide, by decide, by decide,
    hammdist_complement { calls := [] } 12 (-13) (by decide) (by decide)⟩

end Hammdist
